import Mathlib

/-!
Verification development for the PiNetmanager controller/agent protocol
(`controller_server.py` / `pi_client.py`).

The Python source is shallowly embedded: every definition below is a direct
translation of a function or code path of the source.  Calls into the Python
standard library that the repository does not define (`hmac.new(...).hexdigest()`,
`json.loads`) are abstracted as function parameters, so theorems quantify over
them; everything the repository itself computes is modelled concretely.
-/

namespace PiNet

/-! ## JSON scalar values and Python `int(...)` coercion

`validate_auth` runs `int(msg.get('ts', 0))` inside `try/except`.  The
message fields come from `json.loads`, so the `ts` field may hold an integer,
a string, a boolean or `null`.  (JSON floats are outside this model.)
-/

/-- Scalar JSON value that may sit in a message field. -/
inductive PyVal where
  | vint (n : Int)
  | vstr (s : String)
  | vbool (b : Bool)
  | vnull
deriving DecidableEq, Repr

/-- Decimal digit run with Python's underscore grouping (an underscore may
only stand between two digits), accumulating into `acc`. -/
def digitsAux (acc : Nat) : List Char → Option Nat
  | [] => some acc
  | '_' :: d :: rest =>
      if d.isDigit then digitsAux (acc * 10 + (d.toNat - 48)) rest else none
  | d :: rest =>
      if d.isDigit then digitsAux (acc * 10 + (d.toNat - 48)) rest else none

/-- Nonempty decimal digit run (first character must be a digit). -/
def pyIntDigits : List Char → Option Nat
  | [] => none
  | c :: rest => if c.isDigit then digitsAux (c.toNat - 48) rest else none

/-- Surrounding-whitespace strip over the character list (Python `str.strip()`
as `int(...)` applies it). -/
def stripChars (cs : List Char) : List Char :=
  ((cs.dropWhile Char.isWhitespace).reverse.dropWhile Char.isWhitespace).reverse

/-- Python `int(s)` on a string: strip surrounding whitespace, optional sign,
then a nonempty run of decimal digits (underscores allowed between digits);
anything else raises `ValueError`, modelled as `none`. -/
def pyIntOfString (s : String) : Option Int :=
  match stripChars s.toList with
  | '+' :: rest => (pyIntDigits rest).map (fun n => (n : Int))
  | '-' :: rest => (pyIntDigits rest).map (fun n => -(n : Int))
  | cs => (pyIntDigits cs).map (fun n => (n : Int))

/-- Python `int(v)` on a JSON scalar: integers pass through, booleans coerce
to 0/1, strings parse decimally, `null` raises `TypeError` (`none`). -/
def pyIntOfVal : PyVal → Option Int
  | .vint n => some n
  | .vbool b => some (if b then 1 else 0)
  | .vstr s => pyIntOfString s
  | .vnull => none

/-! ## Message model

Messages on the wire are JSON objects read with `.get`, so every field is
optional.  One open record covers the fields the two programs consult
(`type`, `agent`, `ts`, `hmac`, `id`, `rc`, `output`). -/

/-- Decoded JSON message, with exactly the fields the source reads. -/
structure PMsg where
  type : Option String := none
  agent : Option String := none
  ts : Option PyVal := none
  hmac : Option String := none
  id : Option String := none
  rc : Option Int := none
  output : Option String := none
deriving DecidableEq, Repr

instance : Inhabited PMsg := ⟨{}⟩

/-! ## Auth verifier (`AgentHandler.validate_auth`, controller_server.py 188-198)

```python
def validate_auth(self, msg):
    try:
        ts = int(msg.get('ts', 0))
    except:
        return False
    if abs(int(time.time()) - ts) > 60:
        print("[-] Timestamp out of range")
        return False
    client_hmac = msg.get('hmac', '')
    expected = hmac.new(SHARED_SECRET, str(ts).encode(), hashlib.sha256).hexdigest()
    return hmac.compare_digest(client_hmac, expected)
```

`hmac.new(secret, data, sha256).hexdigest()` is a Python-library call, not
repository code; it is abstracted as the parameter `hm : String → String → String`
(key, message ↦ lowercase hex digest).  `hmac.compare_digest` on equal-type
strings returns exactly string equality (its constant-time execution is a
timing property outside a functional embedding). -/

/-- The timestamp `validate_auth` works with: `int(msg.get('ts', 0))` — an
absent field defaults to the integer `0`, a present field goes through the
Python `int(...)` coercion; `none` means the coercion raised. -/
def pyTs (m : PMsg) : Option Int :=
  pyIntOfVal (m.ts.getD (.vint 0))

/-- Translation of `AgentHandler.validate_auth`. -/
def validateAuth (hm : String → String → String) (secret : String)
    (now : Int) (m : PMsg) : Bool :=
  match pyTs m with
  | none => false
  | some ts =>
      if 60 < (now - ts).natAbs then false
      else m.hmac.getD "" == hm secret (toString ts)

/-- Fixed HMAC oracle used by concrete witnesses: key and message glued
with a separator (any function works, the theorems quantify over it). -/
def hmDemo : String → String → String := fun k msg => k ++ ":" ++ msg

/-- HMAC oracle that ignores its arguments, used to exhibit counterexamples. -/
def hmConst : String → String → String := fun _ _ => "h"

/-- C1: for every auth message whose `ts` field parses as an integer, and for
every `now`, shared secret and claimed code: inside the 60-second freshness
window `validate_auth` accepts iff the claimed code equals the digest of the
decimal string of `ts` under the shared secret; outside the window it always
rejects. -/
theorem c1_verify_window_and_code (hm : String → String → String) (secret : String)
    (now : Int) (m : PMsg) (ts : Int) (hts : pyTs m = some ts) :
    ((now - ts).natAbs ≤ 60 →
      (validateAuth hm secret now m = true ↔ m.hmac.getD "" = hm secret (toString ts))) ∧
    (60 < (now - ts).natAbs → validateAuth hm secret now m = false) := by
  unfold validateAuth
  rw [hts]
  constructor
  · intro hle
    have hnot : ¬ 60 < (now - ts).natAbs := by omega
    simp [hnot]
  · intro hgt
    simp [hgt]

/-- Message used by the C1 witness: `ts` is the integer 20 and the claimed
code matches `hmDemo "s" "20"`. -/
def c1msg : PMsg := { type := some "auth", ts := some (.vint 20), hmac := some "s:20" }

/-- Witness for C1 at `now = 0`, `ts = 20` (inside the window). -/
theorem c1_verify_window_and_code_witness :
    validateAuth hmDemo "s" 0 c1msg = true ↔ c1msg.hmac.getD "" = hmDemo "s" (toString (20 : Int)) :=
  (c1_verify_window_and_code hmDemo "s" 0 c1msg 20 (by decide)).1 (by decide)

/-- C2 as frozen: an absent or non-numeric `ts` makes `verify` return false
for every `now`, secret and claimed code. -/
def claimC2Prop : Prop :=
  ∀ (hm : String → String → String) (secret : String) (now : Int) (m : PMsg),
    (m.ts = none ∨ ∃ v, m.ts = some v ∧ pyIntOfVal v = none) →
    validateAuth hm secret now m = false

/-- C2 fails on the code: `msg.get('ts', 0)` turns an ABSENT `ts` into the
integer 0 instead of failing closed, so at `now = 0` (within 60 of 0) a
message with no `ts` and a code matching the digest of `"0"` is accepted. -/
theorem c2_absent_ts_counterexample : ¬ claimC2Prop := fun h =>
  absurd (h hmConst "k" 0 { hmac := some "h" } (Or.inl rfl)) (by decide)

/-- C2 amended: a present but non-numeric `ts` fails closed for every `now`,
secret and code; an absent `ts` is treated as timestamp 0, so it is rejected
whenever `|now| > 60` (hence for every realistic clock value), but not
unconditionally. -/
theorem c2_nonnumeric_ts_fails_closed (hm : String → String → String)
    (secret : String) (now : Int) (m : PMsg) :
    (∀ v, m.ts = some v → pyIntOfVal v = none → validateAuth hm secret now m = false) ∧
    (m.ts = none → 60 < now.natAbs → validateAuth hm secret now m = false) := by
  constructor
  · intro v hv hparse
    unfold validateAuth pyTs
    rw [hv]
    simp [hparse]
  · intro hnone hfar
    have hts : pyTs m = some 0 := by unfold pyTs; rw [hnone]; decide
    have hgt : 60 < (now - 0).natAbs := by omega
    unfold validateAuth
    rw [hts]
    exact if_pos hgt

/-- Witness for C2 (amended): `ts = "abc"` is rejected at `now = 10`, and an
absent `ts` is rejected at `now = 100`. -/
theorem c2_nonnumeric_ts_fails_closed_witness :
    validateAuth hmDemo "k" 10 { ts := some (.vstr "abc") } = false ∧
    validateAuth hmDemo "k" 100 { hmac := some "h" } = false :=
  ⟨(c2_nonnumeric_ts_fails_closed hmDemo "k" 10 { ts := some (.vstr "abc") }).1
      (.vstr "abc") rfl (by decide),
   (c2_nonnumeric_ts_fails_closed hmDemo "k" 100 { hmac := some "h" }).2 rfl (by decide)⟩

/-! ## Session handler (`AgentHandler.run`, controller_server.py 116-149)

The handler's externally visible protocol actions are its registry mutations,
the `auth_result` frames it sends, and closing the connection.  `run` reads one
message, authenticates, registers, answers `auth_result{ok:true}`, monitors
(the liveness loop touches neither the registry nor the send channel), and the
`finally:` cleanup removes the agent (if it registered) and closes.  The
outcome of the first `recv_msg` call is the handler's input: `None` (peer
closed), an exception (malformed JSON, socket closed mid-message, I/O error —
all land in the same generic `except` and run only the cleanup), or a decoded
object.  A payload decoding to a falsy or non-dict value also reaches no
further than closing, matching the `closed`/`errRecv` traces. -/

/-- Outcome of the handler's first `recv_msg` call. -/
inductive RecvOut where
  | closed
  | errRecv
  | got (m : PMsg)
deriving DecidableEq, Repr

/-- Observable handler action. -/
inductive HEvent where
  | register (id : String)
  | sendAuthResult (ok : Bool)
  | unregister (id : String)
  | close
deriving DecidableEq, Repr

/-- Identity computed on auth success:
`f"{msg.get('agent', f'{self.addr[0]}')}_{self.addr[0]}:{self.addr[1]}"`. -/
def agentIdOf (m : PMsg) (addr : String × Nat) : String :=
  (m.agent.getD addr.1) ++ "_" ++ addr.1 ++ ":" ++ toString addr.2

/-- Trace of protocol actions `AgentHandler.run` performs, as a function of
the first received message. -/
def handlerEvents (hm : String → String → String) (secret : String) (now : Int)
    (addr : String × Nat) (first : RecvOut) : List HEvent :=
  match first with
  | .closed => [.close]
  | .errRecv => [.close]
  | .got m =>
      if m.type ≠ some "auth" then [.close]
      else if validateAuth hm secret now m then
        [.register (agentIdOf m addr), .sendAuthResult true,
         .unregister (agentIdOf m addr), .close]
      else [.sendAuthResult false, .close]

/-- C7: a first message that is absent, not of type `auth`, or failing the
verifier leads to: `auth_result{ok:false}` sent exactly when the message was a
well-formed `auth` message, the connection closed, and no registry insertion —
an insertion happens only after a successful `auth` verification. -/
theorem c7_failed_handshake_closes_without_register (hm : String → String → String)
    (secret : String) (now : Int) (addr : String × Nat) (first : RecvOut) :
    ((first = .closed ∨ first = .errRecv ∨ ∃ m, first = .got m ∧ m.type ≠ some "auth") →
      handlerEvents hm secret now addr first = [.close]) ∧
    (∀ m, first = .got m → m.type = some "auth" → validateAuth hm secret now m = false →
      handlerEvents hm secret now addr first = [.sendAuthResult false, .close]) ∧
    (∀ id, HEvent.register id ∈ handlerEvents hm secret now addr first →
      ∃ m, first = .got m ∧ m.type = some "auth" ∧ validateAuth hm secret now m = true) ∧
    HEvent.close ∈ handlerEvents hm secret now addr first := by
  refine ⟨?_, ?_, ?_, ?_⟩
  · rintro (rfl | rfl | ⟨m, rfl, hne⟩)
    · rfl
    · rfl
    · simp [handlerEvents, hne]
  · intro m hgot hty hval
    subst hgot
    simp [handlerEvents, hty, hval]
  · intro id hmem
    cases first with
    | closed => simp [handlerEvents] at hmem
    | errRecv => simp [handlerEvents] at hmem
    | got m =>
      by_cases hty : m.type = some "auth"
      · by_cases hval : validateAuth hm secret now m = true
        · exact ⟨m, rfl, hty, hval⟩
        · rw [Bool.not_eq_true] at hval
          simp [handlerEvents, hty, hval] at hmem
      · simp [handlerEvents, hty] at hmem
  · cases first with
    | closed => simp [handlerEvents]
    | errRecv => simp [handlerEvents]
    | got m =>
      by_cases hty : m.type = some "auth"
      · by_cases hval : validateAuth hm secret now m = true
        · simp [handlerEvents, hty, hval]
        · rw [Bool.not_eq_true] at hval
          simp [handlerEvents, hty, hval]
      · simp [handlerEvents, hty]

/-- Successful handshake trace: register, `auth_result{ok:true}`, monitor
(no events), then the cleanup's unregister and close. -/
theorem handlerEvents_success (hm : String → String → String) (secret : String)
    (now : Int) (addr : String × Nat) (m : PMsg)
    (hty : m.type = some "auth") (hval : validateAuth hm secret now m = true) :
    handlerEvents hm secret now addr (.got m) =
      [.register (agentIdOf m addr), .sendAuthResult true,
       .unregister (agentIdOf m addr), .close] := by
  simp [handlerEvents, hty, hval]

/-- C10: an authenticating `auth` message with no `agent` field registers
under the identity `"<remote-ip>_<remote-ip>:<remote-port>"` — the remote IP
substitutes for the display name — and the handler trace is exactly the trace
the same message would produce with `agent` set to the remote IP. -/
theorem c10_missing_agent_defaults_to_ip (hm : String → String → String)
    (secret : String) (now : Int) (addr : String × Nat) (m : PMsg)
    (hty : m.type = some "auth") (hagent : m.agent = none)
    (hval : validateAuth hm secret now m = true) :
    agentIdOf m addr = addr.1 ++ "_" ++ addr.1 ++ ":" ++ toString addr.2 ∧
    handlerEvents hm secret now addr (.got m) =
      [.register (agentIdOf m addr), .sendAuthResult true,
       .unregister (agentIdOf m addr), .close] ∧
    handlerEvents hm secret now addr (.got m) =
      handlerEvents hm secret now addr (.got { m with agent := some addr.1 }) := by
  have hval' : validateAuth hm secret now { m with agent := some addr.1 } = true := hval
  have hty' : ({ m with agent := some addr.1 } : PMsg).type = some "auth" := hty
  have hid : agentIdOf m addr = addr.1 ++ "_" ++ addr.1 ++ ":" ++ toString addr.2 := by
    simp [agentIdOf, hagent]
  have hid' : agentIdOf { m with agent := some addr.1 } addr = agentIdOf m addr := by
    simp [agentIdOf, hagent]
  refine ⟨hid, handlerEvents_success hm secret now addr m hty hval, ?_⟩
  rw [handlerEvents_success hm secret now addr m hty hval,
    handlerEvents_success hm secret now addr _ hty' hval', hid']

/-- Message used by the C10 witness: a valid `auth` with no `agent` field. -/
def c10msg : PMsg := { type := some "auth", ts := some (.vint 0), hmac := some "h" }

/-- Witness for C10 at address 10.0.0.5:4242 (so the registered identity is
`10.0.0.5_10.0.0.5:4242`). -/
theorem c10_missing_agent_defaults_to_ip_witness :
    agentIdOf c10msg ("10.0.0.5", 4242) = "10.0.0.5" ++ "_" ++ "10.0.0.5" ++ ":" ++ toString (4242 : Nat) ∧
    handlerEvents hmConst "k" 0 ("10.0.0.5", 4242) (.got c10msg) =
      [.register (agentIdOf c10msg ("10.0.0.5", 4242)), .sendAuthResult true,
       .unregister (agentIdOf c10msg ("10.0.0.5", 4242)), .close] ∧
    handlerEvents hmConst "k" 0 ("10.0.0.5", 4242) (.got c10msg) =
      handlerEvents hmConst "k" 0 ("10.0.0.5", 4242) (.got { c10msg with agent := some "10.0.0.5" }) :=
  c10_missing_agent_defaults_to_ip hmConst "k" 0 ("10.0.0.5", 4242) c10msg rfl rfl (by decide)

/-! ## Agent registry (`connected_agents` / `agents_lock`, controller_server.py 66-68)

`connected_agents` is a dict from agent identity to the live socket, every
access serialized by `agents_lock`; it is modelled as an association list (the
socket handle as an opaque `Nat`).  Because the lock serializes every mutation
and snapshot, any concurrent execution is some sequence of the atomic actions
below.  `list(connected_agents.items())` copies the entries out, which the
functional model renders as returning the current value. -/

/-- Registry contents: identity ↦ connection handle. -/
abbrev Registry := List (String × Nat)

/-- The identities currently registered. -/
def regKeys (r : Registry) : List String := r.map (fun p => p.1)

/-- `connected_agents[agent_id] = conn`: dict assignment — replaces in place
when the key exists, appends otherwise (Python dicts keep insertion order). -/
def regRegister (r : Registry) (id : String) (conn : Nat) : Registry :=
  if r.any (fun p => p.1 == id) then
    r.map (fun p => if p.1 = id then (id, conn) else p)
  else r ++ [(id, conn)]

/-- `if agent_id in connected_agents: del connected_agents[agent_id]`. -/
def regUnregister (r : Registry) (id : String) : Registry :=
  r.filter (fun p => !(p.1 == id))

/-- `list(connected_agents.items())`: a point-in-time copy of the entries. -/
def regSnapshot (r : Registry) : Registry := r

/-- An atomic registry mutation (each runs under `agents_lock`): a handler's
insert, a handler's cleanup delete, or the command loop's
`connected_agents.clear()` on blank input. -/
inductive RegAction where
  | register (id : String) (conn : Nat)
  | unregister (id : String)
  | clearAll
deriving DecidableEq, Repr

/-- Effect of one atomic action on the registry. -/
def applyAction (r : Registry) : RegAction → Registry
  | .register id conn => regRegister r id conn
  | .unregister id => regUnregister r id
  | .clearAll => []

/-- Effect of a serialized sequence of actions. -/
def applyActions (r : Registry) (acts : List RegAction) : Registry :=
  acts.foldl applyAction r

theorem regKeys_regRegister (r : Registry) (id : String) (conn : Nat) :
    regKeys (regRegister r id conn) =
      if id ∈ regKeys r then regKeys r else regKeys r ++ [id] := by
  unfold regRegister
  by_cases h : r.any (fun p => p.1 == id)
  · have hmem : id ∈ regKeys r := by
      rcases List.any_eq_true.mp h with ⟨p, hp, hpe⟩
      have hpe' : p.1 = id := by simpa using hpe
      exact hpe' ▸ List.mem_map_of_mem (fun q => q.1) hp
    rw [if_pos h, if_pos hmem]
    show List.map (fun p => p.1) (r.map fun p => if p.1 = id then (id, conn) else p) = regKeys r
    rw [List.map_map]
    have hfun : ((fun p : String × Nat => p.1) ∘ fun p => if p.1 = id then (id, conn) else p) =
        fun p : String × Nat => p.1 := by
      funext p
      by_cases hp : p.1 = id
      · simp [hp]
      · simp [hp]
    rw [hfun]
    rfl
  · have hmem : id ∉ regKeys r := by
      intro hin
      rcases List.mem_map.mp hin with ⟨p, hp, hpe⟩
      exact h (List.any_eq_true.mpr ⟨p, hp, by simp [hpe]⟩)
    rw [if_neg h, if_neg hmem]
    simp [regKeys]

theorem regKeys_nodup_applyAction (r : Registry) (a : RegAction)
    (h : (regKeys r).Nodup) : (regKeys (applyAction r a)).Nodup := by
  cases a with
  | register id conn =>
    show (regKeys (regRegister r id conn)).Nodup
    rw [regKeys_regRegister]
    by_cases hmem : id ∈ regKeys r
    · rwa [if_pos hmem]
    · rw [if_neg hmem]
      simp [List.nodup_append, h, hmem]
  | unregister id =>
    exact List.Nodup.sublist (List.Sublist.map _ (List.filter_sublist r)) h
  | clearAll => simp [applyAction, regKeys]

theorem regKeys_nodup_applyActions (acts : List RegAction) :
    ∀ r : Registry, (regKeys r).Nodup → (regKeys (applyActions r acts)).Nodup := by
  induction acts with
  | nil => intro r h; exact h
  | cons a rest ih =>
    intro r h
    exact ih (applyAction r a) (regKeys_nodup_applyAction r a h)

/-- A `register` event occurs in a handler trace only for a well-formed
`auth` first message that the verifier accepted. -/
theorem register_only_after_auth (hm : String → String → String) (secret : String)
    (now : Int) (addr : String × Nat) (first : RecvOut) (id : String) :
    HEvent.register id ∈ handlerEvents hm secret now addr first →
    ∃ m, first = .got m ∧ m.type = some "auth" ∧ validateAuth hm secret now m = true := by
  intro hmem
  cases first with
  | closed => simp [handlerEvents] at hmem
  | errRecv => simp [handlerEvents] at hmem
  | got m =>
    by_cases hty : m.type = some "auth"
    · by_cases hval : validateAuth hm secret now m = true
      · exact ⟨m, rfl, hty, hval⟩
      · rw [Bool.not_eq_true] at hval
        simp [handlerEvents, hty, hval] at hmem
    · simp [handlerEvents, hty] at hmem

/-- A handler's cleanup removes only the identity that same handler
registered: every `unregister` in a trace is preceded by the matching
`register`. -/
theorem unregister_only_own (hm : String → String → String) (secret : String)
    (now : Int) (addr : String × Nat) (first : RecvOut) (id : String) :
    HEvent.unregister id ∈ handlerEvents hm secret now addr first →
    HEvent.register id ∈ handlerEvents hm secret now addr first := by
  intro hmem
  cases first with
  | closed => simp [handlerEvents] at hmem
  | errRecv => simp [handlerEvents] at hmem
  | got m =>
    by_cases hty : m.type = some "auth"
    · by_cases hval : validateAuth hm secret now m = true
      · rw [handlerEvents_success hm secret now addr m hty hval] at hmem ⊢
        simp at hmem ⊢
        exact hmem
      · rw [Bool.not_eq_true] at hval
        simp [handlerEvents, hty, hval] at hmem
    · simp [handlerEvents, hty] at hmem

/-! ## Command dispatcher (`command_loop`, controller_server.py 215-257)

One loop iteration reads a command string.  Blank input closes every agent
connection and clears the registry (lines 223-230); a command key outside
`ALLOWED_COMMAND_KEYS` is rejected before the request id is drawn and before
the registry is consulted (lines 232-234); otherwise one `str(uuid.uuid4())`
is drawn (line 236, the `reqId` parameter), a snapshot is taken under the
lock, and the per-agent loop runs with no early exit: each agent's `send_msg`
/ `recv_msg` round trip is wrapped in its own `try/except`.  What each
agent's socket does during its round trip is the `Beh` input below; the
per-agent observable report (printed result, `UnexpectedResponse` complaint,
or caught I/O error) is the agent's outcome. -/

/-- Allowlisted command keys (controller_server.py line 17). -/
def ALLOWED_COMMAND_KEYS : List String :=
  ["uptime", "hostname", "disk", "lslogs", "metrics", "network"]

/-- Behaviour of one agent's connection during its dispatch round trip:
`send_msg` raises, `recv_msg` raises, or `recv_msg` returns (`none` = peer
closed before answering, `some r` = a decoded response). -/
inductive Beh where
  | sendErr
  | recvErr
  | reply (resp : Option PMsg)
deriving DecidableEq, Repr

/-- The `cmd` frame sent to one agent: `{'type': 'cmd', 'id': req_id, 'cmd': cmd}`. -/
structure CmdMsg where
  id : String
  cmd : String
deriving DecidableEq, Repr

/-- Per-agent dispatch report. -/
inductive AOutcome where
  | success (rc : Option Int) (output : Option String)
  | unexpected
  | ioError
deriving DecidableEq, Repr

/-- How one `command_loop` iteration ended. -/
inductive DStatus where
  | closedAll
  | notAllowed
  | noAgents
  | ran
deriving DecidableEq, Repr

/-- Observable result of one `command_loop` iteration: status, the `cmd`
frames that went out, the per-agent reports, the registry after the
iteration, and whether the registry was read at all. -/
structure DispatchRes where
  status : DStatus
  sent : List (String × CmdMsg)
  outcomes : List (String × AOutcome)
  registryAfter : Registry
  snapshotTaken : Bool
deriving DecidableEq, Repr

/-- `if resp and resp.get('type') == 'result' and resp.get('id') == req_id`
(lines 248-255): a falsy response or a type/id mismatch is reported as an
unexpected response, a match as the agent's result. -/
def handleResp (reqId : String) (resp : Option PMsg) : AOutcome :=
  match resp with
  | none => .unexpected
  | some r =>
      if r.type = some "result" ∧ r.id = some reqId then .success r.rc r.output
      else .unexpected

/-- One agent's report as a function of its own round trip alone. -/
def agentOutcome (reqId : String) (b : Beh) : AOutcome :=
  match b with
  | .sendErr => .ioError
  | .recvErr => .ioError
  | .reply resp => handleResp reqId resp

/-- The `for agent_id, conn in agents:` loop (lines 244-257): returns the
sent frames and the per-agent reports.  A raising `send_msg` sends nothing;
both kinds of exception are caught by the per-agent `except` and the loop
moves to the next agent. -/
def dispatchAgents (beh : Nat → Beh) (reqId cmd : String) :
    List (String × Nat) → List (String × CmdMsg) × List (String × AOutcome)
  | [] => ([], [])
  | (aid, conn) :: rest =>
      let tail := dispatchAgents beh reqId cmd rest
      match beh conn with
      | .sendErr => (tail.1, (aid, .ioError) :: tail.2)
      | .recvErr => ((aid, ⟨reqId, cmd⟩) :: tail.1, (aid, .ioError) :: tail.2)
      | .reply resp => ((aid, ⟨reqId, cmd⟩) :: tail.1, (aid, handleResp reqId resp) :: tail.2)

/-- The dispatch path of one iteration (from the allowlist check on,
lines 232-257). -/
def dispatch (cmd reqId : String) (reg : Registry) (beh : Nat → Beh) : DispatchRes :=
  if cmd ∉ ALLOWED_COMMAND_KEYS then
    { status := .notAllowed, sent := [], outcomes := [],
      registryAfter := reg, snapshotTaken := false }
  else
    let agents := regSnapshot reg
    if agents = [] then
      { status := .noAgents, sent := [], outcomes := [],
        registryAfter := reg, snapshotTaken := true }
    else
      let run := dispatchAgents beh reqId cmd agents
      { status := .ran, sent := run.1, outcomes := run.2,
        registryAfter := reg, snapshotTaken := true }

/-- One full `command_loop` iteration: blank input closes all connections and
clears the registry, anything else goes down the dispatch path. -/
def cmdLoopStep (cmd reqId : String) (reg : Registry) (beh : Nat → Beh) : DispatchRes :=
  if cmd = "" then
    { status := .closedAll, sent := [], outcomes := [],
      registryAfter := [], snapshotTaken := false }
  else dispatch cmd reqId reg beh

/-- Behaviour used by concrete witnesses: every agent answers `None`. -/
def behDemo : Nat → Beh := fun _ => .reply none

/-- Every frame the per-agent loop sends carries the single drawn request id. -/
theorem dispatchAgents_sent_id (beh : Nat → Beh) (reqId cmd : String)
    (agents : List (String × Nat)) :
    ∀ p ∈ (dispatchAgents beh reqId cmd agents).1, p.2.id = reqId := by
  induction agents with
  | nil => intro p hp; simp [dispatchAgents] at hp
  | cons hd tl ih =>
    obtain ⟨aid, conn⟩ := hd
    intro p hp
    cases hb : beh conn with
    | sendErr =>
      rw [show dispatchAgents beh reqId cmd ((aid, conn) :: tl) =
          ((dispatchAgents beh reqId cmd tl).1, (aid, .ioError) :: (dispatchAgents beh reqId cmd tl).2) by
        simp [dispatchAgents, hb]] at hp
      exact ih p hp
    | recvErr =>
      rw [show dispatchAgents beh reqId cmd ((aid, conn) :: tl) =
          ((aid, ⟨reqId, cmd⟩) :: (dispatchAgents beh reqId cmd tl).1,
           (aid, .ioError) :: (dispatchAgents beh reqId cmd tl).2) by
        simp [dispatchAgents, hb]] at hp
      rcases List.mem_cons.mp hp with rfl | hp
      · rfl
      · exact ih p hp
    | reply resp =>
      rw [show dispatchAgents beh reqId cmd ((aid, conn) :: tl) =
          ((aid, ⟨reqId, cmd⟩) :: (dispatchAgents beh reqId cmd tl).1,
           (aid, handleResp reqId resp) :: (dispatchAgents beh reqId cmd tl).2) by
        simp [dispatchAgents, hb]] at hp
      rcases List.mem_cons.mp hp with rfl | hp
      · rfl
      · exact ih p hp

/-- The per-agent loop reports every agent of the snapshot, each outcome a
function of that agent's own behaviour alone. -/
theorem dispatchAgents_outcomes (beh : Nat → Beh) (reqId cmd : String)
    (agents : List (String × Nat)) :
    (dispatchAgents beh reqId cmd agents).2 =
      agents.map (fun p => (p.1, agentOutcome reqId (beh p.2))) := by
  induction agents with
  | nil => rfl
  | cons hd tl ih =>
    obtain ⟨aid, conn⟩ := hd
    cases hb : beh conn <;> simp [dispatchAgents, agentOutcome, hb, ih]

/-- The dispatch path never mutates the registry: it only reads a snapshot. -/
theorem dispatch_registryAfter (cmd reqId : String) (reg : Registry) (beh : Nat → Beh) :
    (dispatch cmd reqId reg beh).registryAfter = reg := by
  by_cases hcmd : cmd ∉ ALLOWED_COMMAND_KEYS
  · simp [dispatch, hcmd]
  · by_cases hreg : reg = []
    · simp [dispatch, hcmd, regSnapshot, hreg]
    · simp [dispatch, hcmd, regSnapshot, hreg]

/-- C3 as frozen: within one dispatch, the `cmd` frames sent to distinct
agents carry pairwise distinct correlation identifiers. -/
def claimC3Prop : Prop :=
  ∀ (cmd reqId : String) (reg : Registry) (beh : Nat → Beh),
    cmd ∈ ALLOWED_COMMAND_KEYS →
    List.Pairwise (fun a b => a.1 ≠ b.1 → a.2.id ≠ b.2.id)
      (dispatch cmd reqId reg beh).sent

/-- C3 fails on the code: `req_id = str(uuid.uuid4())` runs once per
`command_loop` iteration, before the per-agent loop, so with two registered
agents both `cmd` frames carry the SAME identifier. -/
theorem c3_shared_id_counterexample : ¬ claimC3Prop := by
  intro h
  have hpair := h "uptime" "u0" [("a", 1), ("b", 2)] behDemo (by decide)
  have hsent : (dispatch "uptime" "u0" [("a", 1), ("b", 2)] behDemo).sent =
      [("a", ⟨"u0", "uptime"⟩), ("b", ⟨"u0", "uptime"⟩)] := by decide
  rw [hsent] at hpair
  have hone := (List.pairwise_cons.mp hpair).1 ("b", ⟨"u0", "uptime"⟩) (by simp)
  exact hone (by decide) rfl

/-- C3 amended: one fresh correlation identifier is drawn per dispatch call
(not per agent), and every `cmd` frame of that dispatch carries it. -/
theorem c3_one_id_per_dispatch (cmd reqId : String) (reg : Registry) (beh : Nat → Beh) :
    ∀ p ∈ (dispatch cmd reqId reg beh).sent, p.2.id = reqId := by
  intro p hp
  by_cases hcmd : cmd ∉ ALLOWED_COMMAND_KEYS
  · simp [dispatch, hcmd] at hp
  · by_cases hreg : reg = []
    · simp [dispatch, hcmd, regSnapshot, hreg] at hp
    · have hs : (dispatch cmd reqId reg beh).sent = (dispatchAgents beh reqId cmd reg).1 := by
        simp [dispatch, hcmd, regSnapshot, hreg]
      rw [hs] at hp
      exact dispatchAgents_sent_id beh reqId cmd reg p hp

/-- Witness for C3 (amended) on a one-agent registry. -/
theorem c3_one_id_per_dispatch_witness :
    (("a", (⟨"u0", "uptime"⟩ : CmdMsg)) : String × CmdMsg).2.id = "u0" :=
  c3_one_id_per_dispatch "uptime" "u0" [("a", 1)] behDemo ("a", ⟨"u0", "uptime"⟩) (by decide)

/-- C5: a command key outside the allowlist is rejected as `notAllowed`
before any network activity — no frame is sent to any agent and the registry
is never consulted (`snapshotTaken = false`, registry untouched). -/
theorem c5_disallowed_rejected_before_io (cmd reqId : String) (reg : Registry)
    (beh : Nat → Beh) (hcmd : cmd ∉ ALLOWED_COMMAND_KEYS) :
    dispatch cmd reqId reg beh =
      { status := .notAllowed, sent := [], outcomes := [],
        registryAfter := reg, snapshotTaken := false } := by
  simp [dispatch, hcmd]

/-- Witness for C5: `dispatch("reboot")` with one registered agent. -/
theorem c5_disallowed_rejected_before_io_witness :
    dispatch "reboot" "u0" [("a", 1)] behDemo =
      { status := .notAllowed, sent := [], outcomes := [],
        registryAfter := [("a", 1)], snapshotTaken := false } :=
  c5_disallowed_rejected_before_io "reboot" "u0" [("a", 1)] behDemo (by decide)

/-- C6: each agent's report is a function of that agent's own round trip
alone and every agent of the snapshot gets a report (no mismatch or I/O error
aborts the loop); a response with wrong type or wrong correlation id is
reported `unexpected`, a raising round trip is reported `ioError`. -/
theorem c6_isolated_failures (cmd reqId : String) (reg : Registry) (beh : Nat → Beh)
    (hcmd : cmd ∈ ALLOWED_COMMAND_KEYS) :
    (dispatch cmd reqId reg beh).outcomes =
      reg.map (fun p => (p.1, agentOutcome reqId (beh p.2))) ∧
    (∀ r : PMsg, (r.type ≠ some "result" ∨ r.id ≠ some reqId) →
      handleResp reqId (some r) = .unexpected) ∧
    agentOutcome reqId .sendErr = .ioError ∧ agentOutcome reqId .recvErr = .ioError := by
  refine ⟨?_, ?_, rfl, rfl⟩
  · by_cases hreg : reg = []
    · subst hreg
      simp [dispatch, hcmd, regSnapshot]
    · have hs : (dispatch cmd reqId reg beh).outcomes = (dispatchAgents beh reqId cmd reg).2 := by
        simp [dispatch, hcmd, regSnapshot, hreg]
      rw [hs, dispatchAgents_outcomes]
  · intro r hr
    unfold handleResp
    exact if_neg (by
      rintro ⟨ha, hb⟩
      rcases hr with h | h
      · exact h ha
      · exact h hb)

/-- Witness for C6: one agent whose peer closes before answering (`reply
none`), reported as `unexpected`; plus the mismatch and error facts at a
concrete response. -/
theorem c6_isolated_failures_witness :
    (dispatch "uptime" "u0" [("a", 1)] behDemo).outcomes =
      [("a", 1)].map (fun p => (p.1, agentOutcome "u0" (behDemo p.2))) ∧
    (∀ r : PMsg, (r.type ≠ some "result" ∨ r.id ≠ some "u0") →
      handleResp "u0" (some r) = .unexpected) ∧
    agentOutcome "u0" .sendErr = .ioError ∧ agentOutcome "u0" .recvErr = .ioError :=
  c6_isolated_failures "uptime" "u0" [("a", 1)] behDemo (by decide)

/-- C4 as frozen: registry keys stay duplicate-free, entries are added only
after successful authentication, entries are removed ONLY by the owning
handler's cleanup (so the command loop never removes an entry), and a
snapshot is the point-in-time entry list. -/
def claimC4Prop : Prop :=
  (∀ acts : List RegAction, (regKeys (applyActions [] acts)).Nodup) ∧
  (∀ (hm : String → String → String) (secret : String) (now : Int)
      (addr : String × Nat) (first : RecvOut) (id : String),
      HEvent.register id ∈ handlerEvents hm secret now addr first →
      ∃ m, first = .got m ∧ m.type = some "auth" ∧ validateAuth hm secret now m = true) ∧
  (∀ (cmd reqId : String) (reg : Registry) (beh : Nat → Beh),
      (cmdLoopStep cmd reqId reg beh).registryAfter = reg) ∧
  (∀ r : Registry, regSnapshot r = r)

/-- C4 fails on the code: entries are not removed only by the owning
handler — the command loop's blank-input branch (`connected_agents.clear()`,
line 229) evicts every entry, e.g. it empties the registry `[("a", 1)]`. -/
theorem c4_external_eviction_counterexample : ¬ claimC4Prop := by
  intro h
  exact absurd (h.2.2.1 "" "u0" [("a", 1)] behDemo) (by decide)

/-- C4 amended: keys stay duplicate-free under any serialized action
sequence; a handler registers only after a verified `auth` and its cleanup
unregisters only the identity it registered; the dispatch path never mutates
the registry — but the command loop's blank-input shutdown branch clears it
(the one removal not done by an owning handler); a snapshot is the
point-in-time entry list. -/
theorem c4_registry_discipline :
    (∀ acts : List RegAction, (regKeys (applyActions [] acts)).Nodup) ∧
    (∀ (hm : String → String → String) (secret : String) (now : Int)
        (addr : String × Nat) (first : RecvOut) (id : String),
        HEvent.register id ∈ handlerEvents hm secret now addr first →
        ∃ m, first = .got m ∧ m.type = some "auth" ∧ validateAuth hm secret now m = true) ∧
    (∀ (hm : String → String → String) (secret : String) (now : Int)
        (addr : String × Nat) (first : RecvOut) (id : String),
        HEvent.unregister id ∈ handlerEvents hm secret now addr first →
        HEvent.register id ∈ handlerEvents hm secret now addr first) ∧
    (∀ (cmd reqId : String) (reg : Registry) (beh : Nat → Beh), cmd ≠ "" →
        (cmdLoopStep cmd reqId reg beh).registryAfter = reg) ∧
    (∀ (reqId : String) (reg : Registry) (beh : Nat → Beh),
        (cmdLoopStep "" reqId reg beh).registryAfter = []) ∧
    (∀ r : Registry, regSnapshot r = r) := by
  refine ⟨fun acts => regKeys_nodup_applyActions acts [] (by simp [regKeys]),
    register_only_after_auth, unregister_only_own, ?_, fun reqId reg beh => rfl,
    fun r => rfl⟩
  intro cmd reqId reg beh hne
  unfold cmdLoopStep
  rw [if_neg hne]
  exact dispatch_registryAfter cmd reqId reg beh

/-! ## Framing codec (`recv_msg`, controller_server.py 50-64 = pi_client.py 27-38)

```python
def recv_msg(conn, addr=None):
    hdr = conn.recv(4)
    if not hdr:
        return None
    (length,) = struct.unpack('>I', hdr)
    payload = b''
    while len(payload) < length:
        chunk = conn.recv(length - len(payload))
        if not chunk:
            raise ConnectionError('Socket closed mid-message')
        payload += chunk
    msg = json.loads(payload.decode('utf-8'))
    return msg
```

A TCP connection is modelled as the byte stream still to arrive (`pending`;
its end is the peer closing) together with a delivery schedule `sched`: the
i-th `recv` call returns at most `sched[i]` bytes (at least 1 — a blocking
`recv` yields between 1 and the requested count, or `b''` exactly at end of
stream).  An empty schedule delivers as much as requested.  `struct.unpack('>I', hdr)`
raises `struct.error` whenever `recv(4)` returned 1-3 bytes, and `json.loads`
is a Python-library call abstracted as the `jparse` parameter. -/

/-- One endpoint's receive state: bytes still to arrive, delivery schedule. -/
structure Conn where
  pending : List Nat
  sched : List Nat
deriving DecidableEq, Repr

/-- `conn.recv(n)`: `b''` exactly when the stream is exhausted, otherwise the
next 1..n pending bytes (bounded by the schedule head). -/
def sockRecv (c : Conn) (n : Nat) : List Nat × Conn :=
  match c.pending with
  | [] => ([], c)
  | b :: bs =>
      let cap := match c.sched with
        | [] => n
        | s :: _ => max 1 s
      let k := min n (min cap (b :: bs).length)
      ((b :: bs).take k, ⟨(b :: bs).drop k, c.sched.tail⟩)

/-- Failure modes of `recv_msg`. -/
inductive RecvErr where
  | headerUnpack
  | connClosedMid
  | malformed
deriving DecidableEq, Repr

/-- Result of `recv_msg`: `None`, an exception, or a decoded message. -/
inductive RecvRes where
  | noMsg
  | err (e : RecvErr)
  | msg (m : PMsg)
deriving DecidableEq, Repr

/-- Each successful `recv` with a nonempty chunk strictly shrinks the
pending stream. -/
theorem sockRecv_chunk_spec (c : Conn) (n : Nat) :
    (sockRecv c n).1 = [] ∨ (sockRecv c n).2.pending.length < c.pending.length := by
  obtain ⟨p, sch⟩ := c
  cases p with
  | nil => left; rfl
  | cons b bs =>
    simp only [sockRecv]
    by_cases hk : min n (min (match sch with | [] => n | s :: _ => max 1 s) (b :: bs).length) = 0
    · left
      rw [hk]
      rfl
    · right
      rw [List.length_drop]
      have hlen : 0 < (b :: bs).length := by simp
      omega

/-- The `while len(payload) < length:` accumulation loop. -/
def readPayload (c : Conn) (need : Nat) (acc : List Nat) : Option (List Nat) × Conn :=
  if acc.length < need then
    if (sockRecv c (need - acc.length)).1 = [] then (none, (sockRecv c (need - acc.length)).2)
    else readPayload (sockRecv c (need - acc.length)).2 need (acc ++ (sockRecv c (need - acc.length)).1)
  else (some acc, c)
termination_by c.pending.length
decreasing_by
  rcases sockRecv_chunk_spec c (need - acc.length) with hnil | hlt
  · exact absurd hnil (by assumption)
  · exact hlt

/-- Pulling apart one `recv` call on a nonempty stream: it returns the first
`k` bytes for some `k` between 1 and both the request and the stream length. -/
theorem sockRecv_cons (b : Nat) (bs sch : List Nat) (n : Nat) (hn : 0 < n) :
    ∃ k, 0 < k ∧ k ≤ n ∧ k ≤ (b :: bs).length ∧
      sockRecv ⟨b :: bs, sch⟩ n = ((b :: bs).take k, ⟨(b :: bs).drop k, sch.tail⟩) := by
  refine ⟨min n (min (match sch with | [] => n | s :: _ => max 1 s) (b :: bs).length),
    ?_, ?_, ?_, rfl⟩
  · cases sch with
    | nil => simp; omega
    | cons s t => simp; omega
  · omega
  · omega

/-- Full specification of the accumulation loop: with enough pending bytes it
returns exactly `need - acc.length` further bytes (gathered across however
many partial reads the schedule forces) and leaves the rest pending; with too
few it consumes the stream and fails. -/
theorem readPayload_spec (need : Nat) (p sch acc : List Nat) :
    (need ≤ acc.length + p.length →
      ∃ sch', readPayload ⟨p, sch⟩ need acc =
        (some (acc ++ p.take (need - acc.length)), ⟨p.drop (need - acc.length), sch'⟩)) ∧
    (acc.length + p.length < need →
      ∃ sch', readPayload ⟨p, sch⟩ need acc = (none, ⟨[], sch'⟩)) := by
  by_cases hlt : acc.length < need
  · cases p with
    | nil =>
      constructor
      · intro hle
        exfalso
        simp only [List.length_nil] at hle
        omega
      · intro _
        refine ⟨sch, ?_⟩
        unfold readPayload
        rw [if_pos hlt]
        simp [sockRecv]
    | cons b bs =>
      obtain ⟨k, hk0, hkn, hklen, heq⟩ := sockRecv_cons b bs sch (need - acc.length) (by omega)
      have hchunk : (b :: bs).take k ≠ [] := by
        intro hnil
        have := congrArg List.length hnil
        simp only [List.length_take, List.length_nil] at this
        omega
      have hstep : readPayload ⟨b :: bs, sch⟩ need acc =
          readPayload ⟨(b :: bs).drop k, sch.tail⟩ need (acc ++ (b :: bs).take k) := by
        conv_lhs => unfold readPayload
        rw [if_pos hlt, heq]
        simp only []
        rw [if_neg hchunk]
      have hlen_take : (acc ++ (b :: bs).take k).length = acc.length + k := by
        simp only [List.length_append, List.length_take]
        omega
      have ih := readPayload_spec need ((b :: bs).drop k) sch.tail (acc ++ (b :: bs).take k)
      constructor
      · intro hle
        obtain ⟨sch', hrec⟩ := ih.1 (by
          rw [hlen_take]
          simp only [List.length_drop]
          omega)
        refine ⟨sch', ?_⟩
        rw [hstep, hrec]
        rw [hlen_take]
        congr 2
        · rw [List.append_assoc]
          congr 1
          rw [← List.take_add]
          congr 1
          omega
        · rw [List.drop_drop]
          congr 1
          omega
      · intro hgt
        obtain ⟨sch', hrec⟩ := ih.2 (by
          rw [hlen_take]
          simp only [List.length_drop]
          omega)
        refine ⟨sch', ?_⟩
        rw [hstep, hrec]
  · constructor
    · intro hle
      refine ⟨sch, ?_⟩
      unfold readPayload
      rw [if_neg hlt]
      have h0 : need - acc.length = 0 := by omega
      rw [h0]
      simp
    · intro hgt
      exfalso
      omega
termination_by p.length
decreasing_by
  simp only [List.length_drop]
  omega

/-- `struct.unpack('>I', hdr)` on exactly 4 bytes: big-endian 32-bit value. -/
def beDecode (l : List Nat) : Nat := l.foldl (fun a b => a * 256 + b) 0

/-- `struct.pack('>I', n)`: the 4 big-endian bytes of `n`. -/
def beEncode (n : Nat) : List Nat :=
  [n / 16777216 % 256, n / 65536 % 256, n / 256 % 256, n % 256]

/-- `json.loads(payload)`: a failing parse raises, a succeeding one returns
the message. -/
def parseRes (jparse : List Nat → Option PMsg) (payload : List Nat) : RecvRes :=
  match jparse payload with
  | none => .err .malformed
  | some m => .msg m

/-- Translation of `recv_msg`: one `recv(4)` for the header (`b''` → `None`;
1-3 bytes → `struct.error`), then the accumulation loop for the payload,
then the parse.  There is no size check anywhere. -/
def recvMsg (jparse : List Nat → Option PMsg) (c : Conn) : RecvRes × Conn :=
  if (sockRecv c 4).1 = [] then (.noMsg, (sockRecv c 4).2)
  else if (sockRecv c 4).1.length ≠ 4 then (.err .headerUnpack, (sockRecv c 4).2)
  else
    match readPayload (sockRecv c 4).2 (beDecode (sockRecv c 4).1) [] with
    | (none, c2) => (.err .connClosedMid, c2)
    | (some payload, c2) => (parseRes jparse payload, c2)

/-- The schedule delivers the 4 header bytes in one `recv` (first chunk, if
any, carries at least 4 bytes). -/
def headOK (sch : List Nat) : Prop := ∀ s ∈ sch.take 1, 4 ≤ s

theorem beDecode_beEncode (n : Nat) (hn : n < 4294967296) :
    beDecode (beEncode n) = n := by
  simp only [beDecode, beEncode, List.foldl_cons, List.foldl_nil]
  omega

theorem sockRecv_header (p sch : List Nat) (h4 : 4 ≤ p.length) (hok : headOK sch) :
    sockRecv ⟨p, sch⟩ 4 = (p.take 4, ⟨p.drop 4, sch.tail⟩) := by
  cases p with
  | nil => simp at h4
  | cons b bs =>
    cases sch with
    | nil =>
      simp only [sockRecv]
      have hk : min 4 (min 4 (b :: bs).length) = 4 := by omega
      rw [hk]
    | cons s t =>
      have hs : 4 ≤ s := hok s (by simp)
      simp only [sockRecv]
      have hk : min 4 (min (max 1 s) (b :: bs).length) = 4 := by omega
      rw [hk]

theorem sockRecv_short (p sch : List Nat) (hne : p ≠ []) (hlt : p.length < 4)
    (hok : headOK sch) : sockRecv ⟨p, sch⟩ 4 = (p, ⟨[], sch.tail⟩) := by
  cases p with
  | nil => exact absurd rfl hne
  | cons b bs =>
    cases sch with
    | nil =>
      simp only [sockRecv]
      have hk : min 4 (min 4 (b :: bs).length) = (b :: bs).length := by omega
      rw [hk, List.take_length, List.drop_length]
    | cons s t =>
      have hs : 4 ≤ s := hok s (by simp)
      simp only [sockRecv]
      have hk : min 4 (min (max 1 s) (b :: bs).length) = (b :: bs).length := by omega
      rw [hk, List.take_length, List.drop_length]

/-- Behaviour of `recv_msg` once the 4 header bytes arrived: with fewer than
the declared number of payload bytes pending, the stream is drained and the
mid-message error raised; with enough, exactly the declared bytes are read
(across any schedule of partial reads) and handed to the parser. -/
theorem recvMsg_with_header (jparse : List Nat → Option PMsg) (p sch : List Nat)
    (h4 : 4 ≤ p.length) (hok : headOK sch) :
    (p.length < 4 + beDecode (p.take 4) →
      (recvMsg jparse ⟨p, sch⟩).1 = .err .connClosedMid ∧
      (recvMsg jparse ⟨p, sch⟩).2.pending = []) ∧
    (4 + beDecode (p.take 4) ≤ p.length →
      (recvMsg jparse ⟨p, sch⟩).1 = parseRes jparse ((p.drop 4).take (beDecode (p.take 4))) ∧
      (recvMsg jparse ⟨p, sch⟩).2.pending = (p.drop 4).drop (beDecode (p.take 4))) := by
  have hs := sockRecv_header p sch h4 hok
  have hne : p.take 4 ≠ [] := by
    intro hnil
    have := congrArg List.length hnil
    simp only [List.length_take, List.length_nil] at this
    omega
  have hlen : (p.take 4).length = 4 := by
    simp only [List.length_take]
    omega
  have hrw : recvMsg jparse ⟨p, sch⟩ =
      (match readPayload ⟨p.drop 4, sch.tail⟩ (beDecode (p.take 4)) [] with
        | (none, c2) => (.err .connClosedMid, c2)
        | (some payload, c2) => (parseRes jparse payload, c2)) := by
    unfold recvMsg
    rw [hs]
    simp only []
    rw [if_neg hne, if_neg (fun h => h hlen)]
  have hsp := readPayload_spec (beDecode (p.take 4)) (p.drop 4) sch.tail []
  constructor
  · intro hshort
    obtain ⟨sch', hr⟩ := hsp.2 (by
      simp only [List.length_nil, List.length_drop]
      omega)
    rw [hrw, hr]
    exact ⟨rfl, rfl⟩
  · intro hlong
    obtain ⟨sch', hr⟩ := hsp.1 (by
      simp only [List.length_nil, List.length_drop]
      omega)
    rw [hrw, hr]
    simp

/-- Parser of the concrete witnesses and counterexamples: accepts every
payload as the empty record. -/
def jpDemo : List Nat → Option PMsg := fun _ => some {}

/-- C9: `readMessage` yields "no message" on zero bytes at the header step,
accumulates exactly the declared payload length across partial reads, fails
`connClosedMid` when the stream ends mid-payload, and hands a complete
payload to the parser (whose failure, `malformed`, is a distinct error).  A
header delivered in fewer than 4 bytes at the single `recv(4)` fails with a
`struct.error` (`headerUnpack`) instead of being accumulated — the header
hypothesis `headOK` restricts the schedule accordingly. -/
theorem c9_read_message_framing (jparse : List Nat → Option PMsg) (p sch : List Nat)
    (hok : headOK sch) :
    (p = [] → recvMsg jparse ⟨p, sch⟩ = (.noMsg, ⟨[], sch⟩)) ∧
    (p ≠ [] → p.length < 4 → (recvMsg jparse ⟨p, sch⟩).1 = .err .headerUnpack) ∧
    (4 ≤ p.length →
      (p.length < 4 + beDecode (p.take 4) →
        (recvMsg jparse ⟨p, sch⟩).1 = .err .connClosedMid) ∧
      (4 + beDecode (p.take 4) ≤ p.length →
        (recvMsg jparse ⟨p, sch⟩).1 =
          parseRes jparse ((p.drop 4).take (beDecode (p.take 4))))) := by
  refine ⟨?_, ?_, fun h4 =>
    ⟨fun hx => ((recvMsg_with_header jparse p sch h4 hok).1 hx).1,
     fun hx => ((recvMsg_with_header jparse p sch h4 hok).2 hx).1⟩⟩
  · rintro rfl
    rfl
  · intro hne hlt
    have hs := sockRecv_short p sch hne hlt hok
    unfold recvMsg
    rw [hs]
    simp only []
    rw [if_neg hne, if_pos (by omega : p.length ≠ 4)]

/-- Witness for C9 on the frame `len=1, payload=[49]` arriving in one chunk. -/
theorem c9_read_message_framing_witness :
    (([0, 0, 0, 1, 49] : List Nat) = [] →
      recvMsg jpDemo ⟨[0, 0, 0, 1, 49], []⟩ = (.noMsg, ⟨[], []⟩)) ∧
    (([0, 0, 0, 1, 49] : List Nat) ≠ [] → ([0, 0, 0, 1, 49] : List Nat).length < 4 →
      (recvMsg jpDemo ⟨[0, 0, 0, 1, 49], []⟩).1 = .err .headerUnpack) ∧
    (4 ≤ ([0, 0, 0, 1, 49] : List Nat).length →
      (([0, 0, 0, 1, 49] : List Nat).length <
          4 + beDecode (([0, 0, 0, 1, 49] : List Nat).take 4) →
        (recvMsg jpDemo ⟨[0, 0, 0, 1, 49], []⟩).1 = .err .connClosedMid) ∧
      (4 + beDecode (([0, 0, 0, 1, 49] : List Nat).take 4) ≤
          ([0, 0, 0, 1, 49] : List Nat).length →
        (recvMsg jpDemo ⟨[0, 0, 0, 1, 49], []⟩).1 =
          parseRes jpDemo ((([0, 0, 0, 1, 49] : List Nat).drop 4).take
            (beDecode (([0, 0, 0, 1, 49] : List Nat).take 4))))) :=
  c9_read_message_framing jpDemo [0, 0, 0, 1, 49] [] (by intro s hs; simp at hs)

/-- C9 as frozen: the header step "reads exactly 4 bytes" — i.e. whenever at
least 4 bytes are pending the declared length is taken from the first 4 and
only the payload-phase outcomes can occur. -/
def claimC9Prop : Prop :=
  ∀ (jparse : List Nat → Option PMsg) (p sch : List Nat),
    (p = [] → (recvMsg jparse ⟨p, sch⟩).1 = .noMsg) ∧
    (4 ≤ p.length →
      (p.length < 4 + beDecode (p.take 4) →
        (recvMsg jparse ⟨p, sch⟩).1 = .err .connClosedMid) ∧
      (4 + beDecode (p.take 4) ≤ p.length →
        (recvMsg jparse ⟨p, sch⟩).1 =
          parseRes jparse ((p.drop 4).take (beDecode (p.take 4)))))

/-- C9 fails on the code: `hdr = conn.recv(4)` is a single receive, not an
exact 4-byte read.  On the complete frame `[0,0,0,1,49]` delivered as 2+3
bytes, `recv(4)` returns 2 bytes and `struct.unpack` raises, instead of the
message being returned. -/
theorem c9_fragmented_header_counterexample : ¬ claimC9Prop := by
  intro h
  have hcl := ((h jpDemo [0, 0, 0, 1, 49] [2]).2 (by decide)).2 (by decide)
  have hact : (recvMsg jpDemo ⟨[0, 0, 0, 1, 49], [2]⟩).1 = .err .headerUnpack := rfl
  rw [hact] at hcl
  have hpr : parseRes jpDemo ((([0, 0, 0, 1, 49] : List Nat).drop 4).take
      (beDecode (([0, 0, 0, 1, 49] : List Nat).take 4))) = RecvRes.msg {} := rfl
  rw [hpr] at hcl
  exact RecvRes.noConfusion hcl

/-- On a complete frame with declared length `n` and `n` payload bytes
pending, `recv_msg` consumes the whole frame and returns the parser's
verdict — for any `n` the 4-byte prefix can express. -/
theorem recvMsg_whole_frame (jparse : List Nat → Option PMsg) (n : Nat)
    (payload : List Nat) (hn : n < 4294967296) (hlen : payload.length = n) :
    (recvMsg jparse ⟨beEncode n ++ payload, []⟩).1 = parseRes jparse payload ∧
    (recvMsg jparse ⟨beEncode n ++ payload, []⟩).2.pending = [] := by
  have h4 : (4:Nat) ≤ (beEncode n ++ payload).length := by
    simp [beEncode]
  have htake : (beEncode n ++ payload).take 4 = beEncode n := by
    rw [show (4:Nat) = (beEncode n).length from rfl]
    exact List.take_left _ _
  have hdrop : (beEncode n ++ payload).drop 4 = payload := by
    rw [show (4:Nat) = (beEncode n).length from rfl]
    exact List.drop_left _ _
  have hdec : beDecode (beEncode n) = n := beDecode_beEncode n hn
  have hge : 4 + beDecode ((beEncode n ++ payload).take 4) ≤
      (beEncode n ++ payload).length := by
    rw [htake, hdec]
    simp [beEncode]
    omega
  have hmain := (recvMsg_with_header jparse (beEncode n ++ payload) [] h4
    (by intro s hs; simp at hs)).2 hge
  rw [htake, hdec, hdrop, List.take_of_length_le (le_of_eq hlen),
    List.drop_eq_nil_of_le (le_of_eq hlen)] at hmain
  exact hmain

/-- C8 as frozen: some configured maximum length below the 32-bit prefix
range exists past which `recv_msg` fails without reading the payload
(only the 4 header bytes consumed). -/
def claimC8Prop : Prop :=
  ∃ maxLen : Nat, maxLen < 4294967295 ∧
    ∀ (jparse : List Nat → Option PMsg) (p sch : List Nat),
      4 ≤ p.length → maxLen < beDecode (p.take 4) →
      (∃ e, (recvMsg jparse ⟨p, sch⟩).1 = .err e) ∧
      (recvMsg jparse ⟨p, sch⟩).2.pending = p.drop 4

/-- C8 fails on the code: `recv_msg` has no size check at all.  Whatever
maximum one posits, the frame declaring one byte more is read in full — the
whole payload is consumed, not refused. -/
theorem c8_size_limit_counterexample : ¬ claimC8Prop := by
  rintro ⟨M, hM, h⟩
  have hn : M + 1 < 4294967296 := by omega
  have h4 : (4:Nat) ≤ (beEncode (M + 1) ++ List.replicate (M + 1) 0).length := by
    simp [beEncode]
  have htake : (beEncode (M + 1) ++ List.replicate (M + 1) 0).take 4 = beEncode (M + 1) := by
    rw [show (4:Nat) = (beEncode (M + 1)).length from rfl]
    exact List.take_left _ _
  have hdrop : (beEncode (M + 1) ++ List.replicate (M + 1) 0).drop 4 =
      List.replicate (M + 1) 0 := by
    rw [show (4:Nat) = (beEncode (M + 1)).length from rfl]
    exact List.drop_left _ _
  have hgt : M < beDecode ((beEncode (M + 1) ++ List.replicate (M + 1) 0).take 4) := by
    rw [htake, beDecode_beEncode (M + 1) hn]
    omega
  have hcl := h jpDemo (beEncode (M + 1) ++ List.replicate (M + 1) 0) [] h4 hgt
  have hfull := recvMsg_whole_frame jpDemo (M + 1) (List.replicate (M + 1) 0) hn (by simp)
  have hnil : List.replicate (M + 1) (0:Nat) = [] := by
    rw [← hdrop, ← hcl.2]
    exact hfull.2
  have hlen := congrArg List.length hnil
  simp only [List.length_replicate, List.length_nil] at hlen
  omega

/-- C8 amended: the framing codec enforces NO maximum message size — for
every length the 4-byte prefix can declare, a complete frame is read in full
(header and the entire payload consumed) and handed to the parser; no
`MessageTooLarge` failure exists. -/
theorem c8_no_message_size_limit (jparse : List Nat → Option PMsg) (n : Nat)
    (payload : List Nat) (hn : n < 4294967296) (hlen : payload.length = n) :
    (recvMsg jparse ⟨beEncode n ++ payload, []⟩).1 = parseRes jparse payload ∧
    (recvMsg jparse ⟨beEncode n ++ payload, []⟩).2.pending = [] :=
  recvMsg_whole_frame jparse n payload hn hlen

/-- Witness for C8 (amended): the 2-byte frame `[49, 50]` is read in full. -/
theorem c8_no_message_size_limit_witness :
    (recvMsg jpDemo ⟨beEncode 2 ++ [49, 50], []⟩).1 = parseRes jpDemo [49, 50] ∧
    (recvMsg jpDemo ⟨beEncode 2 ++ [49, 50], []⟩).2.pending = [] :=
  c8_no_message_size_limit jpDemo 2 [49, 50] (by omega) rfl

end PiNet
